import Mathlib

/-
  Verification development for the stateful-llm-builder repository
  (src/agent/builder.py).

  The Python source is shallowly embedded below.  Strings are modelled as
  `List Char` (the character sequence of a Python `str`); `String.data`
  converts Lean string literals into that model.  Filesystem effects of
  the writer are modelled by the list of (path, content) pairs actually
  written, in the order the loop processes them; the run log is modelled
  by the list of entry texts appended (the wall-clock timestamp prefix of
  `log_run` is nondeterministic real time and is omitted).
-/

/-- Model of the line-boundary characters recognised by Python
`str.splitlines` (used in `clean_llm_output`). -/
def isLineBreak (c : Char) : Bool :=
  c == '\n' || c == '\r' || c == '\x0b' || c == '\x0c' ||
  c == '\x1c' || c == '\x1d' || c == '\x1e' || c == '\x85' ||
  c == ' ' || c == ' '

/-- Model of the whitespace characters stripped by Python `str.strip()` /
`str.rstrip()` with no arguments. -/
def pyIsSpace (c : Char) : Bool :=
  c == ' ' || c == '\t' || c == '\n' || c == '\r' || c == '\x0b' ||
  c == '\x0c' || c == '\x1c' || c == '\x1d' || c == '\x1e' ||
  c == '\x1f' || c == '\x85' || c == '\xa0' || c == ' ' ||
  (0x2000 ≤ c.toNat && c.toNat ≤ 0x200a) ||
  c == ' ' || c == ' ' || c == ' ' ||
  c == ' ' || c == '　'

/-- Python `str.lstrip()`: drop leading whitespace. -/
def pyLstrip (l : List Char) : List Char :=
  l.dropWhile pyIsSpace

/-- Python `str.rstrip()`: drop trailing whitespace (used on block content
in `parse_files`). -/
def pyRstrip (l : List Char) : List Char :=
  (l.reverse.dropWhile pyIsSpace).reverse

/-- Python `str.strip()`: drop whitespace at both ends (used on the path
capture and on content emptiness tests in `parse_files`). -/
def pyStrip (l : List Char) : List Char :=
  pyLstrip (pyRstrip l)

/-- Helper of the `splitlines` model: prepend a character to the first
line of an already-split tail (start a new line when there is none). -/
def consFirst (c : Char) : List (List Char) → List (List Char)
  | [] => [[c]]
  | l :: ls => (c :: l) :: ls

/-- Model of Python `str.splitlines()`: split at line boundaries, treating
a `\r\n` pair as a single boundary; a trailing boundary does not produce
an extra empty line. -/
def pySplitlines : List Char → List (List Char)
  | [] => []
  | [c] => if isLineBreak c then [[]] else [[c]]
  | c :: d :: rest =>
    if c = '\r' then
      if d = '\n' then [] :: pySplitlines rest
      else [] :: pySplitlines (d :: rest)
    else if isLineBreak c then
      [] :: pySplitlines (d :: rest)
    else
      consFirst c (pySplitlines (d :: rest))

/-- Model of Python `"\n".join(lines)`. -/
def joinNL : List (List Char) → List Char
  | [] => []
  | [l] => l
  | l :: m :: ls => l ++ '\n' :: joinNL (m :: ls)

/-- The bare delimiter token tested by `clean_llm_output`
(`lines[-1].strip() == "---"`). -/
def dashTok : List Char := "---".data

/-- The `while lines and lines[-1].strip() == "---": lines.pop()` loop of
`clean_llm_output`: remove trailing lines that strip to the bare token. -/
def dropTrailingDashes (L : List (List Char)) : List (List Char) :=
  (L.reverse.dropWhile (fun l => decide (pyStrip l = dashTok))).reverse

/-- Embedding of `clean_llm_output` (src/agent/builder.py): split the raw
text into lines, pop trailing lines that strip to `---`, and join the
remaining lines with `\n`. -/
def clean_llm_output (raw : List Char) : List Char :=
  joinNL (dropTrailingDashes (pySplitlines raw))

/-- First index at which the pattern occurs as a contiguous substring, or
`none`.  Models Python substring search (`in`, and the scanning the regex
engine performs). -/
def findSub (pat : List Char) : List Char → Option Nat
  | [] => if pat = [] then some 0 else none
  | c :: rest =>
    if pat.isPrefixOf (c :: rest) then some 0
    else (findSub pat rest).map (· + 1)

/-- The literal text opening a block marker in `FILE_BLOCK_RE`. -/
def markerL : List Char := "--- file: ".data

/-- The literal text closing a block marker in `FILE_BLOCK_RE`
(the ` ---` of the marker followed by the mandatory newline). -/
def endTokL : List Char := " ---\n".data

/-- The lookahead text of `FILE_BLOCK_RE` that terminates a block's
content: a newline followed by the next opening marker. -/
def nlMarkerL : List Char := "\n--- file: ".data

/-- One attempted match of `FILE_BLOCK_RE` at the start of `s`
(the regex `--- file: (?P<path>.+?) ---\n(?P<content>.*?)(?=\n--- file: |\Z)`
compiled with `re.DOTALL`).  Because the pattern is unanchored and `.`
matches newlines, the non-greedy path capture is the shortest non-empty
text followed by ` ---\n`, wherever that occurs; the non-greedy content
capture is the shortest text after which `\n--- file: ` follows or the
text ends.  Returns `(path, content, remainder after the match)`. -/
def matchBlockAt (s : List Char) : Option (List Char × List Char × List Char) :=
  if markerL.isPrefixOf s then
    match findSub endTokL ((s.drop markerL.length).drop 1) with
    | none => none
    | some j1 =>
      let t := s.drop markerL.length
      let j := j1 + 1
      let u := t.drop (j + endTokL.length)
      let k := (findSub nlMarkerL u).getD u.length
      some (t.take j, u.take k, u.drop k)
  else none

/-- Scanning loop of `FILE_BLOCK_RE.finditer`: at each position try a
match; on success emit the captures and resume after the match span, on
failure advance one character.  `fuel` bounds the recursion and is
instantiated with the text length (every step consumes at least one
character). -/
def findBlocksAux : Nat → List Char → List (List Char × List Char)
  | 0, _ => []
  | _ + 1, [] => []
  | fuel + 1, c :: rest =>
    match matchBlockAt (c :: rest) with
    | some (p, ct, after) => (p, ct) :: findBlocksAux fuel after
    | none => findBlocksAux fuel rest

/-- All matches of `FILE_BLOCK_RE.finditer` over the text, in order, as
raw `(path capture, content capture)` pairs. -/
def findBlocks (s : List Char) : List (List Char × List Char) :=
  findBlocksAux s.length s

/-- The path-safety blacklist of `parse_files`:
`".." in rel_path or rel_path.startswith("/") or ":" in rel_path`. -/
def unsafePath (p : List Char) : Bool :=
  (findSub "..".data p).isSome || "/".data.isPrefixOf p || p.contains ':'

/-- The per-match body of the `parse_files` loop: strip the path capture,
right-strip the content capture, skip blank content, skip (and report)
unsafe paths, and keep the rest in order.  Returns
`(kept proposals, reported unsafe paths)`. -/
def parseLoop : List (List Char × List Char) →
    List (List Char × List Char) × List (List Char)
  | [] => ([], [])
  | (p, ct) :: ms =>
    let relPath := pyStrip p
    let content := pyRstrip ct
    let r := parseLoop ms
    if pyStrip content = [] then r
    else if unsafePath relPath then (r.1, relPath :: r.2)
    else ((relPath, content) :: r.1, r.2)

/-- Embedding of `parse_files` (src/agent/builder.py): the proposals the
extractor returns. -/
def parse_files (llmOutput : List Char) : List (List Char × List Char) :=
  (parseLoop (findBlocks llmOutput)).1

/-- The unsafe-path rejections `parse_files` reports
(`print(f"Skipped unsafe path: ...")`), in order. -/
def unsafe_rejections (llmOutput : List Char) : List (List Char) :=
  (parseLoop (findBlocks llmOutput)).2

/-- The write whitelist of `write_files`:
`rel_path.startswith("output/") or rel_path == "progress.json"`. -/
def allowedPath (p : List Char) : Bool :=
  "output/".data.isPrefixOf p || p == "progress.json".data

/-- Embedding of `write_files` (src/agent/builder.py).  The filesystem
effect is modelled by the returned list: each kept `(path, content)` pair
stands for one `target.write_text(content)` (preceded by
`target.parent.mkdir(parents=True)`), overwriting any existing file; the
Python return value `written` is the first projection of this list. -/
def write_files : List (List Char × List Char) → List (List Char × List Char)
  | [] => []
  | (p, ct) :: ms =>
    if allowedPath p then (p, ct) :: write_files ms
    else write_files ms

/-- The typed errors a step can raise: `FileNotFoundError` from
`read_file`, and `RuntimeError` from `call_ollama`.  The backend error
carries the exit status, the standard error text, and the standard output
text, in the order they appear in the Python message. -/
inductive StepError where
  | missingInput : List Char → StepError
  | backendError : Int → List Char → List Char → StepError
deriving DecidableEq

/-- The four input documents `build_prompt` reads; `none` models an
absent file. -/
structure Docs where
  promptTxt : Option (List Char)
  projectMd : Option (List Char)
  rulesJson : Option (List Char)
  progressJson : Option (List Char)
deriving DecidableEq

/-- The outcome of the external `subprocess.run(["ollama", ...])` call:
exit status and the two captured streams. -/
structure ProcResult where
  returncode : Int
  stdout : List Char
  stderr : List Char
deriving DecidableEq

/-- Embedding of `read_file` (src/agent/builder.py): raise
`FileNotFoundError(f"Missing file: ...")` when the file is absent,
otherwise return its text. -/
def read_file (name : List Char) : Option (List Char) → Except StepError (List Char)
  | none => .error (.missingInput name)
  | some t => .ok t

/-- Embedding of `call_ollama` (src/agent/builder.py): the subprocess
invocation itself is the opaque `ProcResult`; a non-zero exit status
raises `RuntimeError` carrying the code, stderr and stdout, otherwise the
standard output is returned. -/
def call_ollama (r : ProcResult) : Except StepError (List Char) :=
  if r.returncode ≠ 0 then
    .error (.backendError r.returncode r.stderr r.stdout)
  else .ok r.stdout

/-- Embedding of `build_prompt` (src/agent/builder.py): read the four
input documents in the order the f-string evaluates them, substitute them
into the template, and strip the result.  The first absent document
aborts with its `FileNotFoundError`. -/
def build_prompt (d : Docs) : Except StepError (List Char) := do
  let a ← read_file "agent/prompt.txt".data d.promptTxt
  let b ← read_file "project.md".data d.projectMd
  let c ← read_file "rules.json".data d.rulesJson
  let e ← read_file "progress.json".data d.progressJson
  .ok (pyStrip ("\n".data ++ a ++ "\n\n--- project.md ---\n".data ++ b ++
    "\n\n--- rules.json ---\n".data ++ c ++
    "\n\n--- progress.json ---\n".data ++ e ++ "\n".data))

/-- The `str(e)` text of a step error, as Python renders it. -/
def errMsg : StepError → List Char
  | .missingInput p => "Missing file: ".data ++ p
  | .backendError code stderr stdout =>
      "Ollama failed with code ".data ++ (toString code).data ++
      ":\nSTDERR: ".data ++ stderr ++ "\nSTDOUT: ".data ++ stdout

/-- The log text `main` appends for a caught exception
(`log_run(f"ERROR: {e}")`). -/
def errorEntry (e : StepError) : List Char :=
  "ERROR: ".data ++ errMsg e

/-- The observable outcome of one `main` step: the texts appended to the
run log in order, the files written, and the final result (a raised
`StepError` or normal return). -/
structure StepOutcome where
  log : List (List Char)
  written : List (List Char × List Char)
  result : Except StepError Unit

instance : DecidableEq (Except StepError Unit) := fun a b =>
  match a, b with
  | .error x, .error y =>
    if h : x = y then .isTrue (by rw [h])
    else .isFalse (by intro hh; cases hh; exact h rfl)
  | .ok x, .ok y => .isTrue (by cases x; cases y; rfl)
  | .error _, .ok _ => .isFalse (by intro h; cases h)
  | .ok _, .error _ => .isFalse (by intro h; cases h)

instance : DecidableEq StepOutcome := fun a b =>
  if h : a.log = b.log ∧ a.written = b.written ∧ a.result = b.result then
    .isTrue (by cases a; cases b; simp_all)
  else
    .isFalse (by intro hh; cases hh; simp_all)

/-- Embedding of `main` (src/agent/builder.py; named `mainStep` here
because Lean reserves `main`).  `build_prompt` runs
before the `try` block, so its exception propagates without a log entry;
a `call_ollama` failure is logged and re-raised; otherwise the cleaned
output is logged, parsed, and the proposals written (the empty-proposal
early return writes nothing, like `write_files []`). -/
def mainStep (d : Docs) (proc : ProcResult) : StepOutcome :=
  match build_prompt d with
  | .error e => ⟨[], [], .error e⟩
  | .ok _ =>
    match call_ollama proc with
    | .error e => ⟨[errorEntry e], [], .error e⟩
    | .ok raw =>
      let cleaned := clean_llm_output raw
      let blocks := parse_files cleaned
      if blocks = [] then ⟨[cleaned], [], .ok ()⟩
      else ⟨[cleaned], write_files blocks, .ok ()⟩

/-! Helper lemmas.  None of the theorems below this point introduce new
definitions; they are all about the embedded program. -/

theorem dropWhile_head_not {α : Type} (p : α → Bool) :
    ∀ (l : List α) (x : α) (xs : List α), l.dropWhile p = x :: xs → p x = false := by
  intro l
  induction l with
  | nil => intro x xs h; cases h
  | cons a l ih =>
    intro x xs h
    by_cases ha : p a
    · rw [List.dropWhile_cons_of_pos ha] at h
      exact ih x xs h
    · rw [List.dropWhile_cons_of_neg ha] at h
      cases h
      exact Bool.of_not_eq_true ha

theorem dropWhile_self {α : Type} (p : α → Bool) (l : List α) :
    (l.dropWhile p).dropWhile p = l.dropWhile p := by
  cases h : l.dropWhile p with
  | nil => rfl
  | cons x xs =>
    have hx := dropWhile_head_not p l x xs h
    rw [List.dropWhile_cons_of_neg (by simp [hx])]

theorem pySplitlines_cons_crlf (rest : List Char) :
    pySplitlines ('\r' :: '\n' :: rest) = [] :: pySplitlines rest := by
  simp [pySplitlines]

theorem pySplitlines_cons_br (c : Char) (rest : List Char)
    (hc : isLineBreak c = true) (hr : c ≠ '\r') :
    pySplitlines (c :: rest) = [] :: pySplitlines rest := by
  cases rest with
  | nil => simp only [pySplitlines]; rw [if_pos hc]
  | cons d rs => simp only [pySplitlines]; rw [if_neg hr, if_pos hc]

theorem pySplitlines_cons_nb (c : Char) (rest : List Char)
    (hc : isLineBreak c = false) :
    pySplitlines (c :: rest) = consFirst c (pySplitlines rest) := by
  have hr : c ≠ '\r' := by
    intro h; subst h; simp [isLineBreak] at hc
  cases rest with
  | nil => simp only [pySplitlines]; rw [if_neg (by simp [hc])]; rfl
  | cons d rs => simp only [pySplitlines]; rw [if_neg hr, if_neg (by simp [hc])]

theorem pySplitlines_cons_nl (rest : List Char) :
    pySplitlines ('\n' :: rest) = [] :: pySplitlines rest := by
  apply pySplitlines_cons_br
  · rfl
  · intro h; cases h
theorem pySplitlines_cons_cr (d : Char) (rest : List Char) (hd : d ≠ '\n') :
    pySplitlines ('\r' :: d :: rest) = [] :: pySplitlines (d :: rest) := by
  simp only [pySplitlines]
  rw [if_pos trivial, if_neg hd]

theorem pySplitlines_noLB :
    ∀ (s : List Char), ∀ l ∈ pySplitlines s, ∀ c ∈ l, isLineBreak c = false := by
  intro s
  induction s using pySplitlines.induct with
  | case1 => intro l hl; cases hl
  | case2 c hc =>
    intro l hl c' hc'
    simp only [pySplitlines, if_pos hc, List.mem_singleton] at hl
    subst hl; cases hc'
  | case3 c hc =>
    intro l hl c' hc'
    simp only [pySplitlines, if_neg hc, List.mem_singleton] at hl
    subst hl
    simp only [List.mem_singleton] at hc'
    subst hc'
    exact Bool.of_not_eq_true hc
  | case4 rest ih =>
    intro l hl c' hc'
    rw [pySplitlines_cons_crlf] at hl
    rcases List.mem_cons.mp hl with h | h
    · subst h; cases hc'
    · exact ih l h c' hc'
  | case5 d rest hd ih =>
    intro l hl c' hc'
    rw [pySplitlines_cons_cr d rest hd] at hl
    rcases List.mem_cons.mp hl with h | h
    · subst h; cases hc'
    · exact ih l h c' hc'
  | case6 c d rest hr hc ih =>
    intro l hl c' hc'
    rw [pySplitlines_cons_br c (d :: rest) hc hr] at hl
    rcases List.mem_cons.mp hl with h | h
    · subst h; cases hc'
    · exact ih l h c' hc'
  | case7 c d rest hr hc ih =>
    intro l hl c' hc'
    have hcf : isLineBreak c = false := Bool.of_not_eq_true hc
    rw [pySplitlines_cons_nb c (d :: rest) hcf] at hl
    cases htl : pySplitlines (d :: rest) with
    | nil =>
      rw [htl] at hl
      simp only [consFirst, List.mem_singleton] at hl
      subst hl
      simp only [List.mem_singleton] at hc'
      subst hc'
      exact hcf
    | cons l0 ls0 =>
      rw [htl] at hl
      simp only [consFirst, List.mem_cons] at hl
      rcases hl with h | h
      · subst h
        rcases List.mem_cons.mp hc' with h | h
        · subst h; exact hcf
        · exact ih l0 (by rw [htl]; exact List.mem_cons_self l0 ls0) c' h
      · exact ih l (by rw [htl]; exact List.mem_cons_of_mem l0 h) c' hc'

theorem pySplitlines_single (l : List Char)
    (h : ∀ c ∈ l, isLineBreak c = false) (hne : l ≠ []) :
    pySplitlines l = [l] := by
  induction l with
  | nil => exact absurd rfl hne
  | cons c cs ih =>
    have hc : isLineBreak c = false := h c (List.mem_cons_self c cs)
    rw [pySplitlines_cons_nb c cs hc]
    cases cs with
    | nil => rfl
    | cons d ds =>
      rw [ih (fun c' hc' => h c' (List.mem_cons_of_mem c hc')) (by simp)]
      rfl

theorem pySplitlines_line_append (l rest : List Char)
    (h : ∀ c ∈ l, isLineBreak c = false) :
    pySplitlines (l ++ '\n' :: rest) = l :: pySplitlines rest := by
  induction l with
  | nil => simpa using pySplitlines_cons_nl rest
  | cons c cs ih =>
    have hc : isLineBreak c = false := h c (List.mem_cons_self c cs)
    rw [List.cons_append, pySplitlines_cons_nb c _ hc,
      ih (fun c' hc' => h c' (List.mem_cons_of_mem c hc'))]
    rfl

theorem pySplitlines_joinNL :
    ∀ (D : List (List Char)), (∀ l ∈ D, ∀ c ∈ l, isLineBreak c = false) →
      (∀ l, D.getLast? = some l → l ≠ []) → pySplitlines (joinNL D) = D := by
  intro D
  induction D with
  | nil => intro _ _; rfl
  | cons l D' ih =>
    intro hAll hLast
    cases D' with
    | nil =>
      have hj : joinNL [l] = l := rfl
      rw [hj]
      have hne : l ≠ [] := hLast l (by simp)
      exact pySplitlines_single l (hAll l (List.mem_cons_self l [])) hne
    | cons m D'' =>
      have hj : joinNL (l :: m :: D'') = l ++ '\n' :: joinNL (m :: D'') := by
        simp only [joinNL]
      rw [hj, pySplitlines_line_append _ _ (hAll l (List.mem_cons_self l (m :: D'')))]
      congr 1
      apply ih
      · intro l' h'
        exact hAll l' (List.mem_cons_of_mem l h')
      · intro l' h'
        apply hLast
        rw [List.getLast?_cons_cons]
        exact h'

theorem mem_dropTrailingDashes {L : List (List Char)} {l : List Char}
    (h : l ∈ dropTrailingDashes L) : l ∈ L := by
  unfold dropTrailingDashes at h
  rw [List.mem_reverse] at h
  have h2 := (List.dropWhile_sublist _).subset h
  rwa [List.mem_reverse] at h2

theorem dropTrailingDashes_getLast {L : List (List Char)} {l : List Char}
    (h : (dropTrailingDashes L).getLast? = some l) : ¬(pyStrip l = dashTok) := by
  unfold dropTrailingDashes at h
  rw [List.getLast?_reverse] at h
  cases hd : L.reverse.dropWhile (fun l => decide (pyStrip l = dashTok)) with
  | nil => rw [hd] at h; cases h
  | cons x xs =>
    rw [hd] at h
    simp only [List.head?_cons, Option.some.injEq] at h
    subst h
    have hx := dropWhile_head_not _ _ _ _ hd
    simpa using hx

theorem dropTrailingDashes_idem (L : List (List Char)) :
    dropTrailingDashes (dropTrailingDashes L) = dropTrailingDashes L := by
  unfold dropTrailingDashes
  rw [List.reverse_reverse, dropWhile_self]

theorem joinNL_endNil_getLast :
    ∀ (D : List (List Char)), D ≠ [] → (joinNL (D ++ [[]])).getLast? = some '\n' := by
  intro D
  induction D with
  | nil => intro h; exact absurd rfl h
  | cons d D' ih =>
    intro _
    cases D' with
    | nil =>
      have hj : joinNL ([d] ++ [[]]) = d ++ ['\n'] := rfl
      rw [hj, List.getLast?_concat]
    | cons e D'' =>
      rw [List.cons_append, List.cons_append]
      have hj : joinNL (d :: e :: (D'' ++ [[]])) =
          d ++ '\n' :: joinNL (e :: (D'' ++ [[]])) := by
        simp only [joinNL]
      have hih := ih (by simp)
      rw [List.cons_append] at hih
      rw [hj, List.getLast?_append, List.getLast?_cons, hih]
      simp

/-- Claim C5 (amended): for every input whose sanitized output does not
end with a newline character, the output has no trailing line that strips
to the bare delimiter `---`, and sanitization is idempotent there.
(Unconditional idempotence fails: joining with `\n` collapses a trailing
empty kept line, which can expose another delimiter line to a second
run; see the counterexample.) -/
theorem sanitizer_trailing_and_idem (x : List Char)
    (h : (clean_llm_output x).getLast? ≠ some '\n') :
    (∀ l, (pySplitlines (clean_llm_output x)).getLast? = some l →
      pyStrip l ≠ dashTok) ∧
    clean_llm_output (clean_llm_output x) = clean_llm_output x := by
  have hclean : clean_llm_output x = joinNL (dropTrailingDashes (pySplitlines x)) := rfl
  generalize hD : dropTrailingDashes (pySplitlines x) = D at hclean
  have hnoLB : ∀ l ∈ D, ∀ c ∈ l, isLineBreak c = false := by
    intro l hl
    rw [← hD] at hl
    exact pySplitlines_noLB x l (mem_dropTrailingDashes hl)
  cases hLast : D.getLast? with
  | none =>
    have hDnil : D = [] := List.getLast?_eq_none_iff.mp hLast
    subst hDnil
    constructor
    · intro l hl
      rw [hclean] at hl
      cases hl
    · rw [hclean]
      rfl
  | some l0 =>
    have hne : D ≠ [] := by
      intro hh
      rw [hh] at hLast
      cases hLast
    by_cases hl0 : l0 = []
    · subst hl0
      have hgl : D.getLast hne = [] := by
        have h2 := List.getLast?_eq_getLast D hne
        rw [hLast] at h2
        injection h2 with h3
        exact h3.symm
      have hsplit := List.dropLast_append_getLast hne
      rw [hgl] at hsplit
      cases hDL : D.dropLast with
      | nil =>
        have hD1 : D = [[]] := by
          rw [← hsplit, hDL]
          rfl
        subst hD1
        constructor
        · intro l hl
          rw [hclean] at hl
          cases hl
        · rw [hclean]
          rfl
      | cons a as =>
        exfalso
        apply h
        rw [hclean, ← hsplit, hDL]
        exact joinNL_endNil_getLast (a :: as) (by simp)
    · have hround : pySplitlines (joinNL D) = D := by
        apply pySplitlines_joinNL D hnoLB
        intro l hl
        rw [hLast] at hl
        injection hl with h2
        subst h2
        exact hl0
      constructor
      · intro l hl
        rw [hclean, hround] at hl
        rw [← hD] at hl
        exact dropTrailingDashes_getLast hl
      · rw [hclean]
        show joinNL (dropTrailingDashes (pySplitlines (joinNL D))) = joinNL D
        rw [hround, ← hD, dropTrailingDashes_idem]

theorem isPrefixOf_append_drop (l1 l2 : List Char)
    (h : l1.isPrefixOf l2 = true) : l2 = l1 ++ l2.drop l1.length := by
  obtain ⟨t, ht⟩ := List.isPrefixOf_iff_prefix.mp h
  subst ht
  rw [List.drop_left]

theorem findSub_some_isPrefixOf (pat : List Char) :
    ∀ (s : List Char) (j : Nat), findSub pat s = some j →
      pat.isPrefixOf (s.drop j) = true := by
  intro s
  induction s with
  | nil =>
    intro j h
    by_cases hp : pat = []
    · subst hp
      simp [findSub] at h
      subst h
      rfl
    · simp [findSub, hp] at h
  | cons c rest ih =>
    intro j h
    by_cases hp : pat.isPrefixOf (c :: rest) = true
    · simp only [findSub, if_pos hp] at h
      injection h with h2
      subst h2
      exact hp
    · simp only [findSub, if_neg hp, Option.map_eq_some'] at h
      obtain ⟨j1, hj1, rfl⟩ := h
      rw [List.drop_succ_cons]
      exact ih j1 hj1

theorem matchBlockAt_some (s p ct after : List Char)
    (h : matchBlockAt s = some (p, ct, after)) :
    s = markerL ++ (p ++ (endTokL ++ (ct ++ after))) := by
  unfold matchBlockAt at h
  split at h
  · next hm =>
    split at h
    · cases h
    · next j1 hfs =>
      simp only [Option.some.injEq, Prod.mk.injEq] at h
      obtain ⟨hp, hct, hafter⟩ := h
      have h1 : s = markerL ++ s.drop markerL.length :=
        isPrefixOf_append_drop _ _ hm
      generalize ht : s.drop markerL.length = t at hfs hp hct hafter h1
      have h3 := findSub_some_isPrefixOf _ _ _ hfs
      rw [List.drop_drop] at h3
      rw [Nat.add_comm 1 j1] at h3
      have h4 := isPrefixOf_append_drop _ _ h3
      rw [List.drop_drop] at h4
      have h2 : t = p ++ t.drop (j1 + 1) := by
        rw [← hp]
        exact (List.take_append_drop _ _).symm
      have h6 : t.drop (j1 + 1 + endTokL.length) = ct ++ after := by
        rw [← hct, ← hafter]
        exact (List.take_append_drop _ _).symm
      have hchain : t = p ++ (endTokL ++ (ct ++ after)) := by
        calc t = p ++ t.drop (j1 + 1) := h2
        _ = p ++ (endTokL ++ t.drop (j1 + 1 + endTokL.length)) := by rw [h4]
        _ = p ++ (endTokL ++ (ct ++ after)) := by rw [h6]
      rw [h1, hchain]
  · cases h

theorem findBlocksAux_mem_split (fuel : Nat) :
    ∀ (s p ct : List Char), (p, ct) ∈ findBlocksAux fuel s →
      ∃ u v, s = u ++ (markerL ++ (p ++ (endTokL ++ (ct ++ v)))) := by
  induction fuel with
  | zero => intro s p ct h; cases h
  | succ f ih =>
    intro s p ct h
    cases s with
    | nil => cases h
    | cons c rest =>
      cases hm : matchBlockAt (c :: rest) with
      | some trip =>
        obtain ⟨p0, ct0, after⟩ := trip
        simp only [findBlocksAux, hm] at h
        rcases List.mem_cons.mp h with h1 | h1
        · rw [Prod.mk.injEq] at h1
          obtain ⟨rfl, rfl⟩ := h1
          have hs := matchBlockAt_some _ _ _ _ hm
          exact ⟨[], after, by rw [hs]; rfl⟩
        · obtain ⟨u, v, huv⟩ := ih after p ct h1
          have hs := matchBlockAt_some _ _ _ _ hm
          refine ⟨markerL ++ (p0 ++ (endTokL ++ (ct0 ++ u))), v, ?_⟩
          rw [hs, huv]
          simp [List.append_assoc]
      | none =>
        simp only [findBlocksAux, hm] at h
        obtain ⟨u, v, huv⟩ := ih rest p ct h
        exact ⟨c :: u, v, by rw [huv]; rfl⟩

theorem pyRstrip_idem (l : List Char) : pyRstrip (pyRstrip l) = pyRstrip l := by
  unfold pyRstrip
  rw [List.reverse_reverse, dropWhile_self]

theorem pyStrip_pyRstrip (l : List Char) : pyStrip (pyRstrip l) = pyStrip l := by
  unfold pyStrip
  rw [pyRstrip_idem]

theorem parseLoop_fst_eq :
    ∀ (ms : List (List Char × List Char)),
      (parseLoop ms).1 = (ms.filter (fun pc =>
          !decide (pyStrip pc.2 = []) && !unsafePath (pyStrip pc.1))).map
        (fun pc => (pyStrip pc.1, pyRstrip pc.2)) := by
  intro ms
  induction ms with
  | nil => rfl
  | cons m ms ih =>
    obtain ⟨p, ct⟩ := m
    simp only [parseLoop]
    by_cases h1 : pyStrip (pyRstrip ct) = []
    · rw [if_pos h1]
      have h1b : pyStrip ct = [] := by rw [← pyStrip_pyRstrip]; exact h1
      simp [List.filter_cons, h1b, ih]
    · have h1b : ¬(pyStrip ct = []) := by rw [← pyStrip_pyRstrip]; exact h1
      rw [if_neg h1]
      cases h2 : unsafePath (pyStrip p) with
      | true =>
        rw [if_pos rfl]
        simp [List.filter_cons, h1b, h2, ih]
      | false =>
        rw [if_neg (by simp)]
        simp [List.filter_cons, h1b, h2, ih]

theorem parseLoop_snd_mem :
    ∀ (ms : List (List Char × List Char)) (p ct : List Char),
      (p, ct) ∈ ms → ¬(pyStrip ct = []) → unsafePath (pyStrip p) = true →
        pyStrip p ∈ (parseLoop ms).2 := by
  intro ms
  induction ms with
  | nil => intro p ct h _ _; cases h
  | cons m ms ih =>
    intro p ct hmem hbl huns
    obtain ⟨q, dt⟩ := m
    simp only [parseLoop]
    rcases List.mem_cons.mp hmem with h1 | h1
    · rw [Prod.mk.injEq] at h1
      obtain ⟨rfl, rfl⟩ := h1
      have hblb : ¬(pyStrip (pyRstrip ct) = []) := by
        rw [pyStrip_pyRstrip]; exact hbl
      rw [if_neg hblb, if_pos huns]
      exact List.mem_cons_self _ _
    · have hih := ih p ct h1 hbl huns
      by_cases hb : pyStrip (pyRstrip dt) = []
      · rw [if_pos hb]; exact hih
      · cases hu : unsafePath (pyStrip q) with
        | true =>
          rw [if_neg hb, if_pos rfl]
          exact List.mem_cons_of_mem _ hih
        | false =>
          rw [if_neg hb, if_neg (by simp)]
          exact hih

theorem write_files_filter :
    ∀ (l : List (List Char × List Char)),
      write_files l = l.filter (fun pc => allowedPath pc.1) := by
  intro l
  induction l with
  | nil => rfl
  | cons m ms ih =>
    obtain ⟨p, ct⟩ := m
    simp only [write_files]
    cases h : allowedPath p with
    | true => simp [List.filter_cons, h, ih]
    | false => simp [List.filter_cons, h, ih]

theorem mem_parse_files_unsafePath {s p ct : List Char}
    (h : (p, ct) ∈ parse_files s) : unsafePath p = false := by
  unfold parse_files at h
  rw [parseLoop_fst_eq] at h
  obtain ⟨⟨q, dt⟩, hmem, heq⟩ := List.mem_map.mp h
  rw [Prod.mk.injEq] at heq
  obtain ⟨h1, h2⟩ := heq
  subst h1
  have hf := (List.mem_filter.mp hmem).2
  rw [Bool.and_eq_true] at hf
  simpa using hf.2

/-- Claim C10: every `(path, content)` pair returned by `parse_files`
already satisfies the path-safety predicate (no `..` substring, no
leading `/`, no `:`), because the safety check runs during extraction,
before the whitelist check of `write_files`. -/
theorem parse_files_paths_safe (s p ct : List Char)
    (h : (p, ct) ∈ parse_files s) :
    (findSub "..".data p).isSome = false ∧
    "/".data.isPrefixOf p = false ∧
    p.contains ':' = false := by
  have hu := mem_parse_files_unsafePath h
  rw [unsafePath] at hu
  simp only [Bool.or_eq_false_iff] at hu
  exact ⟨hu.1.1, hu.1.2, hu.2⟩

theorem parse_files_paths_safe_witness :
    (("a".data, "hi".data) ∈ parse_files "--- file: a ---\nhi".data) ∧
    ((findSub "..".data "a".data).isSome = false ∧
     "/".data.isPrefixOf "a".data = false ∧
     "a".data.contains ':' = false) :=
  ⟨by decide,
   parse_files_paths_safe "--- file: a ---\nhi".data "a".data "hi".data
     (by decide)⟩

/-- Claim C8: the extractor never returns a proposal whose content is
empty or whitespace-only after trimming. -/
theorem extractor_no_blank_content (s p ct : List Char)
    (h : (p, ct) ∈ parse_files s) : pyStrip ct ≠ [] := by
  unfold parse_files at h
  rw [parseLoop_fst_eq] at h
  obtain ⟨⟨q, dt⟩, hmem, heq⟩ := List.mem_map.mp h
  rw [Prod.mk.injEq] at heq
  obtain ⟨h1, h2⟩ := heq
  subst h2
  have hf := (List.mem_filter.mp hmem).2
  rw [Bool.and_eq_true] at hf
  have hb : decide (pyStrip dt = []) = false := by simpa using hf.1
  rw [pyStrip_pyRstrip]
  simpa using hb

theorem extractor_no_blank_content_witness :
    (("b".data, "ok".data) ∈ parse_files "--- file: b ---\nok".data) ∧
    pyStrip "ok".data ≠ [] :=
  ⟨by decide,
   extractor_no_blank_content "--- file: b ---\nok".data "b".data "ok".data
     (by decide)⟩

/-- Claim C1: a proposed path containing `..`, or starting with `/`, or
containing `:`, is never among the extractor's proposals, is never
written (no filesystem mutation is modelled for it), and — when it stems
from a block with non-blank content — is reported as an unsafe-path
rejection. -/
theorem unsafe_path_never_written (s p : List Char)
    (h : (findSub "..".data p).isSome = true ∨
         "/".data.isPrefixOf p = true ∨ p.contains ':' = true) :
    (∀ ct, (p, ct) ∉ parse_files s) ∧
    (∀ ct, (p, ct) ∉ write_files (parse_files s)) ∧
    (∀ q ct, (q, ct) ∈ findBlocks s → pyStrip q = p → pyStrip ct ≠ [] →
      p ∈ unsafe_rejections s) := by
  have hu : unsafePath p = true := by
    rw [unsafePath]
    rcases h with h | h | h <;> rw [h] <;> simp
  have hparse : ∀ ct, (p, ct) ∉ parse_files s := by
    intro ct hmem
    have hf := mem_parse_files_unsafePath hmem
    rw [hu] at hf
    cases hf
  refine ⟨hparse, ?_, ?_⟩
  · intro ct hmem
    rw [write_files_filter] at hmem
    exact hparse ct (List.mem_filter.mp hmem).1
  · intro q ct hb hq hc
    have := parseLoop_snd_mem (findBlocks s) q ct hb hc (by rw [hq]; exact hu)
    rw [hq] at this
    exact this

theorem unsafe_path_never_written_witness :
    ((findSub "..".data "../evil.txt".data).isSome = true ∨
     "/".data.isPrefixOf "../evil.txt".data = true ∨
     "../evil.txt".data.contains ':' = true) ∧
    ((∀ ct, ("../evil.txt".data, ct) ∉
        parse_files "--- file: x ---\nhi\n--- file: ../evil.txt ---\nbad\n".data) ∧
     (∀ ct, ("../evil.txt".data, ct) ∉
        write_files (parse_files
          "--- file: x ---\nhi\n--- file: ../evil.txt ---\nbad\n".data)) ∧
     (∀ q ct, (q, ct) ∈
          findBlocks "--- file: x ---\nhi\n--- file: ../evil.txt ---\nbad\n".data →
        pyStrip q = "../evil.txt".data → pyStrip ct ≠ [] →
        "../evil.txt".data ∈
          unsafe_rejections
            "--- file: x ---\nhi\n--- file: ../evil.txt ---\nbad\n".data)) :=
  ⟨Or.inl (by decide),
   unsafe_path_never_written
     "--- file: x ---\nhi\n--- file: ../evil.txt ---\nbad\n".data
     "../evil.txt".data (Or.inl (by decide))⟩

/-- Claim C2: `write_files` keeps exactly the proposals whose path starts
with `output/` or equals `progress.json`, in order, writing each kept
proposal's content; every other proposal is rejected and not written. -/
theorem write_files_whitelist (l : List (List Char × List Char)) :
    write_files l = l.filter
      (fun pc => "output/".data.isPrefixOf pc.1 || pc.1 == "progress.json".data) := by
  rw [write_files_filter]
  rfl

/-- Claim C3: on the scenario input, the pipeline returns exactly one
proposal, writes exactly `output/a.txt` with content `hello`, and reports
exactly one unsafe-path rejection, for `../evil.txt`. -/
theorem scenario_parse_write :
    parse_files
        "--- file: output/a.txt ---\nhello\n--- file: ../evil.txt ---\nbad\n".data
      = [("output/a.txt".data, "hello".data)] ∧
    write_files (parse_files
        "--- file: output/a.txt ---\nhello\n--- file: ../evil.txt ---\nbad\n".data)
      = [("output/a.txt".data, "hello".data)] ∧
    unsafe_rejections
        "--- file: output/a.txt ---\nhello\n--- file: ../evil.txt ---\nbad\n".data
      = ["../evil.txt".data] := by
  refine ⟨by decide, by decide, by decide⟩

/-- Claim C4 (counterexample): on an input whose single block has
non-empty trimmed content but an unsafe path, the extractor returns no
proposal, so the number of proposals differs from the number of blocks
with non-empty trimmed content. -/
theorem extractor_count_cex :
    ¬((parse_files "--- file: ../e ---\nhello".data).length =
      ((findBlocks "--- file: ../e ---\nhello".data).filter
        (fun pc => !decide (pyStrip pc.2 = []))).length) := by
  decide

/-- Claim C4 (amended): the extractor returns proposals in block order —
it is the image, under stripping, of the block list filtered to blocks
with non-empty trimmed content AND a safe trimmed path — and the number
of proposals equals the number of such blocks. -/
theorem parse_files_order_and_count (s : List Char) :
    parse_files s = ((findBlocks s).filter (fun pc =>
        !decide (pyStrip pc.2 = []) && !unsafePath (pyStrip pc.1))).map
      (fun pc => (pyStrip pc.1, pyRstrip pc.2)) ∧
    (parse_files s).length = ((findBlocks s).filter (fun pc =>
        !decide (pyStrip pc.2 = []) && !unsafePath (pyStrip pc.1))).length := by
  have h := parseLoop_fst_eq (findBlocks s)
  constructor
  · exact h
  · show (parseLoop (findBlocks s)).1.length = _
    rw [h, List.length_map]

/-- Claim C5 (counterexample): on input `---\n\n` the sanitizer returns
`---\n`, whose (only) trailing line is the bare delimiter, and a second
sanitization returns the empty string — so the claimed trailing-line
property and idempotence both fail as stated. -/
theorem sanitizer_not_idempotent_cex :
    clean_llm_output (clean_llm_output "---\n\n".data) ≠
      clean_llm_output "---\n\n".data ∧
    (pySplitlines (clean_llm_output "---\n\n".data)).getLast? =
      some "---".data ∧
    pyStrip "---".data = dashTok := by
  decide

theorem sanitizer_trailing_and_idem_witness :
    ((clean_llm_output "a\n---\n".data).getLast? ≠ some '\n') ∧
    ((∀ l, (pySplitlines (clean_llm_output "a\n---\n".data)).getLast? = some l →
        pyStrip l ≠ dashTok) ∧
     clean_llm_output (clean_llm_output "a\n---\n".data) =
       clean_llm_output "a\n---\n".data) :=
  ⟨by decide, sanitizer_trailing_and_idem "a\n---\n".data (by decide)⟩

/-- Claim C9 (counterexample): because `FILE_BLOCK_RE` is compiled with
`re.DOTALL` and is unanchored, the path capture can span a line break:
on input `--- file: a\nb ---\nhello` the extractor returns a proposal
whose path contains a newline character. -/
theorem path_newline_cex :
    ("a\nb".data, "hello".data) ∈
      parse_files "--- file: a\nb ---\nhello".data ∧
    '\n' ∈ "a\nb".data := by
  decide

/-- Claim C9 (amended): every returned proposal arises from a contiguous
occurrence `--- file: <path> ---\n<content>` in the text — the stripped
path capture between a `--- file: ` occurrence and the next ` ---` that
is followed by a newline, and the right-stripped content after it.  The
path capture is not confined to one marker line and may contain
newlines. -/
theorem proposal_from_marker_occurrence (s p ct : List Char)
    (h : (p, ct) ∈ parse_files s) :
    ∃ q dt u v, p = pyStrip q ∧ ct = pyRstrip dt ∧
      s = u ++ (markerL ++ (q ++ (endTokL ++ (dt ++ v)))) := by
  unfold parse_files at h
  rw [parseLoop_fst_eq] at h
  obtain ⟨⟨q, dt⟩, hmem, heq⟩ := List.mem_map.mp h
  rw [Prod.mk.injEq] at heq
  obtain ⟨h1, h2⟩ := heq
  have hb := (List.mem_filter.mp hmem).1
  obtain ⟨u, v, huv⟩ := findBlocksAux_mem_split _ _ _ _ hb
  exact ⟨q, dt, u, v, h1.symm, h2.symm, huv⟩

theorem proposal_from_marker_occurrence_witness :
    (("ok.txt".data, "body".data) ∈
      parse_files "--- file: ok.txt ---\nbody".data) ∧
    (∃ q dt u v, "ok.txt".data = pyStrip q ∧ "body".data = pyRstrip dt ∧
      "--- file: ok.txt ---\nbody".data =
        u ++ (markerL ++ (q ++ (endTokL ++ (dt ++ v))))) :=
  ⟨by decide,
   proposal_from_marker_occurrence "--- file: ok.txt ---\nbody".data
     "ok.txt".data "body".data (by decide)⟩

/-- Claim C6: when the prompt inputs are all present and the backend
exits with a non-zero status, `main` appends exactly one log entry
carrying the exit status, the standard error and the standard output,
re-raises the backend error, and attempts no file write. -/
theorem backend_failure_logged (d : Docs) (proc : ProcResult)
    (hb : (build_prompt d).isOk = true) (hc : proc.returncode ≠ 0) :
    mainStep d proc =
      ⟨[errorEntry (.backendError proc.returncode proc.stderr proc.stdout)],
       [], .error (.backendError proc.returncode proc.stderr proc.stdout)⟩ := by
  unfold mainStep
  cases hE : build_prompt d with
  | error e =>
    rw [hE] at hb
    simp [Except.isOk, Except.toBool] at hb
  | ok pr =>
    unfold call_ollama
    rw [if_pos hc]

theorem backend_failure_logged_witness :
    ((build_prompt ⟨some [], some [], some [], some []⟩).isOk = true) ∧
    ((1 : Int) ≠ 0) ∧
    mainStep ⟨some [], some [], some [], some []⟩ ⟨1, "out".data, "err".data⟩ =
      ⟨[errorEntry (.backendError 1 "err".data "out".data)], [],
       .error (.backendError 1 "err".data "out".data)⟩ :=
  ⟨by decide, by decide,
   backend_failure_logged ⟨some [], some [], some [], some []⟩
     ⟨1, "out".data, "err".data⟩ (by decide) (by decide)⟩

/-- Claim C7 (counterexample): with the prompt template absent, the step
fails with the missing-input error but the run log receives no entry —
the failure is not logged, because `build_prompt` runs outside the
`try` block of `main`. -/
theorem missing_input_not_logged_cex :
    (mainStep ⟨none, some [], some [], some []⟩ ⟨0, [], []⟩).log = [] ∧
    (mainStep ⟨none, some [], some [], some []⟩ ⟨0, [], []⟩).result =
      .error (.missingInput "agent/prompt.txt".data) := by
  decide

/-- Claim C7 (amended): if any required input document is absent, the
step fails fatally with a missing-input error before the backend is
invoked (the outcome is independent of the backend result), no file is
written — but, contrary to the original claim, the failure is NOT
logged: the run log receives no entry. -/
theorem missing_input_fatal_unlogged (d : Docs) (proc proc2 : ProcResult)
    (h : d.promptTxt = none ∨ d.projectMd = none ∨ d.rulesJson = none ∨
         d.progressJson = none) :
    (∃ nm, (mainStep d proc).result = .error (.missingInput nm)) ∧
    (mainStep d proc).log = [] ∧
    (mainStep d proc).written = [] ∧
    mainStep d proc = mainStep d proc2 := by
  have hbuild : ∃ nm, build_prompt d = .error (.missingInput nm) := by
    cases hp : d.promptTxt with
    | none =>
      exact ⟨"agent/prompt.txt".data, by unfold build_prompt; rw [hp]; rfl⟩
    | some a =>
      cases hq : d.projectMd with
      | none =>
        exact ⟨"project.md".data, by unfold build_prompt; rw [hp, hq]; rfl⟩
      | some b =>
        cases hr : d.rulesJson with
        | none =>
          exact ⟨"rules.json".data, by unfold build_prompt; rw [hp, hq, hr]; rfl⟩
        | some c =>
          cases hs : d.progressJson with
          | none =>
            exact ⟨"progress.json".data, by
              unfold build_prompt; rw [hp, hq, hr, hs]; rfl⟩
          | some e =>
            exfalso
            rcases h with h | h | h | h <;> simp_all
  obtain ⟨nm, hb⟩ := hbuild
  have hms : ∀ pr : ProcResult,
      mainStep d pr = ⟨[], [], .error (.missingInput nm)⟩ := by
    intro pr
    unfold mainStep
    rw [hb]
  exact ⟨⟨nm, by rw [hms proc]⟩, by rw [hms proc], by rw [hms proc],
    by rw [hms proc, hms proc2]⟩

theorem missing_input_fatal_unlogged_witness :
    ((⟨some [], none, some [], some []⟩ : Docs).projectMd = none) ∧
    ((∃ nm, (mainStep ⟨some [], none, some [], some []⟩
        ⟨0, [], []⟩).result = .error (.missingInput nm)) ∧
     (mainStep ⟨some [], none, some [], some []⟩ ⟨0, [], []⟩).log = [] ∧
     (mainStep ⟨some [], none, some [], some []⟩ ⟨0, [], []⟩).written = [] ∧
     mainStep ⟨some [], none, some [], some []⟩ ⟨0, [], []⟩ =
       mainStep ⟨some [], none, some [], some []⟩ ⟨1, "a".data, "b".data⟩) :=
  ⟨rfl,
   missing_input_fatal_unlogged ⟨some [], none, some [], some []⟩
     ⟨0, [], []⟩ ⟨1, "a".data, "b".data⟩ (Or.inr (Or.inl rfl))⟩
